import Mathlib

/-!
Verification of the async-worker state machine from
`include/worker/worker.hpp` (namespace `worker`).

The shared register guarded by `status_m_` is modelled as a structure
`Reg`; each member function is translated into a pure function on `Reg`.
Blocking condition-variable waits do not mutate the register, so each
control call is split into its synchronous mutating part (modelled here)
and its wait predicate.  `notify_all` calls are counted in the result of
each operation.  The whole concurrent system (one worker thread plus the
controller) is an explicit transition relation `Step` on `Sys`, which
adds the worker thread's control location to the register.
-/

namespace AsyncWorker

/-- `worker::Status`. -/
inductive Status where
  | RUNNING
  | PAUSED
  | STOPPED
  | FINISHED
deriving DecidableEq, Repr

/-- `BaseWorker::terminal_status()`: status is STOPPED or FINISHED. -/
def terminal_status (st : Status) : Bool :=
  st == Status.STOPPED || st == Status.FINISHED

/-- The shared state guarded by `status_m_`: current status (`status_`),
the scheduled status change (`status_change_`, an `std::optional<Status>`)
and the published progress (`progress_`, a double modelled as a rational). -/
structure Reg where
  status : Status
  status_change : Option Status
  progress : ℚ
deriving DecidableEq, Repr

/-- `std::clamp(v, lo, hi)`: `v < lo ? lo : hi < v ? hi : v`. -/
def clamp (v lo hi : ℚ) : ℚ :=
  if v < lo then lo else if hi < v then hi else v

/-- `BaseWorker::set_progress(progress)`: store the progress clamped to `[0, 1]`. -/
def set_progress (s : Reg) (p : ℚ) : Reg :=
  { s with progress := clamp p 0 1 }

/-- The `std::logic_error` thrown on an illegal control transition. -/
inductive CtrlError where
  | invalidTransition
deriving DecidableEq, Repr

/-- Mutating part of `BaseWorker::pause()`: throws unless status is RUNNING,
otherwise schedules `status_change_ = PAUSED` (no `notify_all` before the wait).
The subsequent wait blocks until `status_ == PAUSED || terminal_status()`. -/
def pause (s : Reg) : Except CtrlError (Reg × Nat) :=
  if s.status ≠ Status.RUNNING then .error .invalidTransition
  else .ok ({ s with status_change := some Status.PAUSED }, 0)

/-- Mutating part of `BaseWorker::restart()`: throws unless status is PAUSED,
otherwise schedules `status_change_ = RUNNING` and calls `notify_all` once.
The subsequent wait blocks until `status_ == RUNNING || terminal_status()`. -/
def restart (s : Reg) : Except CtrlError (Reg × Nat) :=
  if s.status ≠ Status.PAUSED then .error .invalidTransition
  else .ok ({ s with status_change := some Status.RUNNING }, 1)

/-- Mutating part of `BaseWorker::stop()`: throws unless status is RUNNING or
PAUSED, otherwise schedules `status_change_ = STOPPED` and calls `notify_all`
once.  The subsequent wait blocks until `terminal_status()`. -/
def stop (s : Reg) : Except CtrlError (Reg × Nat) :=
  if s.status ≠ Status.RUNNING ∧ s.status ≠ Status.PAUSED then .error .invalidTransition
  else .ok ({ s with status_change := some Status.STOPPED }, 1)

/-- The predicate `stop()` waits on: `terminal_status()`. -/
def stop_wait_pred (s : Reg) : Bool :=
  terminal_status s.status

/-- The pause branch of `BaseWorker::yield` before its wait:
`status_change_.reset(); status_ = PAUSED` (followed by `notify_all`). -/
def yield_enter_pause (s : Reg) : Reg :=
  { s with status_change := none, status := Status.PAUSED }

/-- The pause branch of `BaseWorker::yield` after its wait wakes:
`status_ = RUNNING` (followed by `notify_all`); `status_change_` is not touched. -/
def yield_awake (s : Reg) : Reg :=
  { s with status := Status.RUNNING }

/-- `BaseWorker::yield(progress)` as a function of the register, the progress
argument, and the status change the controller wrote while the worker was
blocked in the pause branch (the wait predicate only admits RUNNING or
STOPPED there, hence the `wake` argument).  Returns the new register, the
boolean result, and the number of `notify_all` calls executed. -/
def yield (s : Reg) (p : ℚ) (wake : Status) : Reg × Bool × Nat :=
  let s1 := set_progress s p
  if s1.status_change = some Status.PAUSED then
    let s2 := yield_enter_pause s1
    let s3 := yield_awake { s2 with status_change := some wake }
    (s3, if s3.status_change = some Status.STOPPED then false else true, 2)
  else
    (s1, if s1.status_change = some Status.STOPPED then false else true, 0)

/-- `BaseWorker::worker_done()`: `status_ = status_change_ != STOPPED ?
FINISHED : STOPPED`, then `set_progress(1)` if the worker finished, then one
`notify_all`.  Returns the new register and the `notify_all` count. -/
def worker_done (s : Reg) : Reg × Nat :=
  let s1 := { s with
    status := if s.status_change ≠ some Status.STOPPED then Status.FINISHED
              else Status.STOPPED }
  let s2 := if s1.status = Status.FINISHED then set_progress s1 1 else s1
  (s2, 1)

/-- Control location of the worker thread launched by `std::async`:
executing the payload, blocked inside `yield`'s pause wait, past
`worker_done` but still delivering the result into the future, or exited. -/
inductive WLoc where
  | running
  | pausedWait
  | finishing
  | exited
deriving DecidableEq, Repr

/-- Whole-system state: the shared register plus the worker thread location. -/
structure Sys where
  reg : Reg
  wloc : WLoc
deriving DecidableEq, Repr

/-- State at construction: `status_ = RUNNING`, no scheduled change,
`progress_ = 0`, worker thread started immediately. -/
def init : Sys := ⟨⟨Status.RUNNING, none, 0⟩, WLoc.running⟩

/-- One atomic step of the system: a controller call's mutating section
(successful or throwing), one of the atomic sections of `yield`, the
`worker_done` finalisation, or the worker thread's final exit (which does
not touch the register). -/
inductive Step : Sys → Sys → Prop where
  | pause_ok (s : Sys) (r : Reg) (n : Nat) :
      pause s.reg = .ok (r, n) → Step s ⟨r, s.wloc⟩
  | pause_err (s : Sys) (e : CtrlError) :
      pause s.reg = .error e → Step s s
  | restart_ok (s : Sys) (r : Reg) (n : Nat) :
      restart s.reg = .ok (r, n) → Step s ⟨r, s.wloc⟩
  | restart_err (s : Sys) (e : CtrlError) :
      restart s.reg = .error e → Step s s
  | stop_ok (s : Sys) (r : Reg) (n : Nat) :
      stop s.reg = .ok (r, n) → Step s ⟨r, s.wloc⟩
  | stop_err (s : Sys) (e : CtrlError) :
      stop s.reg = .error e → Step s s
  | yield_progress (s : Sys) (p : ℚ) :
      s.wloc = WLoc.running → s.reg.status_change ≠ some Status.PAUSED →
      Step s ⟨set_progress s.reg p, WLoc.running⟩
  | yield_pause (s : Sys) (p : ℚ) :
      s.wloc = WLoc.running → s.reg.status_change = some Status.PAUSED →
      Step s ⟨yield_enter_pause (set_progress s.reg p), WLoc.pausedWait⟩
  | yield_wake (s : Sys) :
      s.wloc = WLoc.pausedWait →
      (s.reg.status_change = some Status.RUNNING ∨
       s.reg.status_change = some Status.STOPPED) →
      Step s ⟨yield_awake s.reg, WLoc.running⟩
  | finish (s : Sys) :
      s.wloc = WLoc.running → Step s ⟨(worker_done s.reg).1, WLoc.finishing⟩
  | thread_exit (s : Sys) :
      s.wloc = WLoc.finishing → Step s ⟨s.reg, WLoc.exited⟩

/-- States reachable from construction. -/
inductive Reachable : Sys → Prop where
  | init : Reachable init
  | step {s s' : Sys} : Reachable s → Step s s' → Reachable s'

/-! ### Helper lemmas -/

theorem clamp01_mem (p : ℚ) : 0 ≤ clamp p 0 1 ∧ clamp p 0 1 ≤ 1 := by
  unfold clamp
  split_ifs <;> constructor <;> linarith

theorem set_progress_status (s : Reg) (p : ℚ) : (set_progress s p).status = s.status := rfl

theorem set_progress_change (s : Reg) (p : ℚ) :
    (set_progress s p).status_change = s.status_change := rfl

theorem set_progress_progress (s : Reg) (p : ℚ) :
    (set_progress s p).progress = clamp p 0 1 := rfl

theorem clamp_one : clamp 1 0 1 = 1 := by
  norm_num [clamp]

theorem worker_done_status (s : Reg) :
    (worker_done s).1.status =
      if s.status_change = some Status.STOPPED then Status.STOPPED
      else Status.FINISHED := by
  unfold worker_done
  by_cases h : s.status_change = some Status.STOPPED <;> simp [h, set_progress]

theorem worker_done_change (s : Reg) :
    (worker_done s).1.status_change = s.status_change := by
  unfold worker_done
  by_cases h : s.status_change = some Status.STOPPED <;> simp [h, set_progress]

theorem worker_done_progress (s : Reg) :
    (worker_done s).1.progress =
      if s.status_change = some Status.STOPPED then s.progress else 1 := by
  unfold worker_done
  by_cases h : s.status_change = some Status.STOPPED <;>
    simp [h, set_progress, clamp_one]

theorem pause_ok_iff (s r : Reg) (n : Nat) :
    pause s = .ok (r, n) ↔
      s.status = Status.RUNNING ∧
      r = { s with status_change := some Status.PAUSED } ∧ n = 0 := by
  unfold pause
  split_ifs with h
  · constructor
    · intro hc
      exact absurd hc (by simp)
    · rintro ⟨h1, -, -⟩
      exact absurd h1 h
  · push_neg at h
    constructor
    · intro hc
      injection hc with hc
      injection hc with hr hn
      exact ⟨h, hr.symm, hn.symm⟩
    · rintro ⟨-, rfl, rfl⟩
      rfl

theorem restart_ok_iff (s r : Reg) (n : Nat) :
    restart s = .ok (r, n) ↔
      s.status = Status.PAUSED ∧
      r = { s with status_change := some Status.RUNNING } ∧ n = 1 := by
  unfold restart
  split_ifs with h
  · constructor
    · intro hc
      exact absurd hc (by simp)
    · rintro ⟨h1, -, -⟩
      exact absurd h1 h
  · push_neg at h
    constructor
    · intro hc
      injection hc with hc
      injection hc with hr hn
      exact ⟨h, hr.symm, hn.symm⟩
    · rintro ⟨-, rfl, rfl⟩
      rfl

theorem stop_ok_iff (s r : Reg) (n : Nat) :
    stop s = .ok (r, n) ↔
      (s.status = Status.RUNNING ∨ s.status = Status.PAUSED) ∧
      r = { s with status_change := some Status.STOPPED } ∧ n = 1 := by
  unfold stop
  split_ifs with h
  · constructor
    · intro hc
      exact absurd hc (by simp)
    · rintro ⟨h1 | h1, -, -⟩
      · exact absurd h1 h.1
      · exact absurd h1 h.2
  · rw [not_and_or, not_not, not_not] at h
    constructor
    · intro hc
      injection hc with hc
      injection hc with hr hn
      exact ⟨h, hr.symm, hn.symm⟩
    · rintro ⟨-, rfl, rfl⟩
      rfl

theorem pause_err_iff (s : Reg) (e : CtrlError) :
    pause s = .error e ↔ s.status ≠ Status.RUNNING := by
  unfold pause
  split_ifs with h <;> simp [h]

theorem restart_err_iff (s : Reg) (e : CtrlError) :
    restart s = .error e ↔ s.status ≠ Status.PAUSED := by
  unfold restart
  split_ifs with h <;> simp [h]

theorem stop_err_iff (s : Reg) (e : CtrlError) :
    stop s = .error e ↔ (s.status ≠ Status.RUNNING ∧ s.status ≠ Status.PAUSED) := by
  unfold stop
  split_ifs with h <;> simp [h]

/-- The invariant tying the register to the worker thread's location. -/
def Inv (s : Sys) : Prop :=
  (s.reg.status = Status.PAUSED ↔ s.wloc = WLoc.pausedWait) ∧
  (terminal_status s.reg.status = true ↔
    (s.wloc = WLoc.finishing ∨ s.wloc = WLoc.exited)) ∧
  0 ≤ s.reg.progress ∧ s.reg.progress ≤ 1 ∧
  (s.reg.status = Status.FINISHED → s.reg.progress = 1)

theorem inv_init : Inv init :=
  ⟨by decide, by decide, le_refl 0, by norm_num [init], fun h => absurd h (by decide)⟩

theorem status_of_running {s : Sys} (hI : Inv s) (hw : s.wloc = WLoc.running) :
    s.reg.status = Status.RUNNING := by
  obtain ⟨hp, ht, -, -, -⟩ := hI
  cases hstat : s.reg.status
  · rfl
  · rw [hp.mp hstat] at hw
    exact absurd hw (by decide)
  · rcases ht.mp (by simp [hstat, terminal_status]) with hl | hl <;>
      (rw [hl] at hw; exact absurd hw (by decide))
  · rcases ht.mp (by simp [hstat, terminal_status]) with hl | hl <;>
      (rw [hl] at hw; exact absurd hw (by decide))

theorem inv_step {s s' : Sys} (hI : Inv s) (hS : Step s s') : Inv s' := by
  obtain ⟨hp, ht, h0, h1, hf⟩ := hI
  cases hS with
  | pause_ok r n h =>
      rw [pause_ok_iff] at h
      obtain ⟨hrun, rfl, rfl⟩ := h
      exact ⟨hp, ht, h0, h1, hf⟩
  | pause_err e h =>
      exact ⟨hp, ht, h0, h1, hf⟩
  | restart_ok r n h =>
      rw [restart_ok_iff] at h
      obtain ⟨hpau, rfl, rfl⟩ := h
      exact ⟨hp, ht, h0, h1, hf⟩
  | restart_err e h =>
      exact ⟨hp, ht, h0, h1, hf⟩
  | stop_ok r n h =>
      rw [stop_ok_iff] at h
      obtain ⟨hlive, rfl, rfl⟩ := h
      exact ⟨hp, ht, h0, h1, hf⟩
  | stop_err e h =>
      exact ⟨hp, ht, h0, h1, hf⟩
  | yield_progress p hw hc =>
      have hst : s.reg.status = Status.RUNNING := status_of_running ⟨hp, ht, h0, h1, hf⟩ hw
      refine ⟨?_, ?_, (clamp01_mem p).1, (clamp01_mem p).2, ?_⟩
      · constructor
        · intro h
          have h2 : s.reg.status = Status.PAUSED := h
          rw [hst] at h2
          exact absurd h2 (by decide)
        · intro h
          exact WLoc.noConfusion h
      · constructor
        · intro h
          have h2 : terminal_status s.reg.status = true := h
          rw [hst] at h2
          exact absurd h2 (by decide)
        · rintro (h | h) <;> exact WLoc.noConfusion h
      · intro hfin
        have h2 : s.reg.status = Status.FINISHED := hfin
        rw [hst] at h2
        exact absurd h2 (by decide)
  | yield_pause p hw hc =>
      refine ⟨⟨fun _ => rfl, fun _ => rfl⟩, ?_,
        (clamp01_mem p).1, (clamp01_mem p).2, ?_⟩
      · constructor
        · intro h
          exact Bool.noConfusion h
        · rintro (h | h) <;> exact WLoc.noConfusion h
      · intro hfin
        exact Status.noConfusion hfin
  | yield_wake hw hc =>
      refine ⟨?_, ?_, h0, h1, ?_⟩
      · exact ⟨fun h => Status.noConfusion h, fun h => WLoc.noConfusion h⟩
      · constructor
        · intro h
          exact Bool.noConfusion h
        · rintro (h | h) <;> exact WLoc.noConfusion h
      · intro hfin
        exact Status.noConfusion hfin
  | finish hw =>
      by_cases hsc : s.reg.status_change = some Status.STOPPED
      · have hst : (worker_done s.reg).1.status = Status.STOPPED := by
          rw [worker_done_status, if_pos hsc]
        have hpr : (worker_done s.reg).1.progress = s.reg.progress := by
          rw [worker_done_progress, if_pos hsc]
        refine ⟨?_, ?_, ?_, ?_, ?_⟩
        · exact ⟨fun h => absurd (hst.symm.trans h) (by decide),
            fun h => WLoc.noConfusion h⟩
        · refine ⟨fun _ => Or.inl rfl, fun _ => ?_⟩
          show terminal_status (worker_done s.reg).1.status = true
          rw [hst]
          rfl
        · show 0 ≤ (worker_done s.reg).1.progress
          rw [hpr]
          exact h0
        · show (worker_done s.reg).1.progress ≤ 1
          rw [hpr]
          exact h1
        · intro h
          exact absurd (hst.symm.trans h) (by decide)
      · have hst : (worker_done s.reg).1.status = Status.FINISHED := by
          rw [worker_done_status, if_neg hsc]
        have hpr : (worker_done s.reg).1.progress = 1 := by
          rw [worker_done_progress, if_neg hsc]
        refine ⟨?_, ?_, ?_, ?_, ?_⟩
        · exact ⟨fun h => absurd (hst.symm.trans h) (by decide),
            fun h => WLoc.noConfusion h⟩
        · refine ⟨fun _ => Or.inl rfl, fun _ => ?_⟩
          show terminal_status (worker_done s.reg).1.status = true
          rw [hst]
          rfl
        · show 0 ≤ (worker_done s.reg).1.progress
          rw [hpr]
          norm_num
        · show (worker_done s.reg).1.progress ≤ 1
          rw [hpr]
        · intro _
          exact hpr
  | thread_exit hw =>
      refine ⟨?_, ?_, h0, h1, hf⟩
      · constructor
        · intro hstat
          rw [hp.mp hstat] at hw
          exact absurd hw (by decide)
        · intro hl
          exact WLoc.noConfusion hl
      · exact ⟨fun _ => Or.inr rfl, fun _ => ht.mpr (Or.inl hw)⟩

theorem reachable_inv {s : Sys} (h : Reachable s) : Inv s := by
  induction h with
  | init => exact inv_init
  | step _ hs ih => exact inv_step ih hs

/-! ### Claim theorems -/

/-- The transition edges the specification declares legal. -/
def allowed_edge (a b : Status) : Prop :=
  (a = Status.RUNNING ∧ b = Status.PAUSED) ∨
  (a = Status.PAUSED ∧ b = Status.RUNNING) ∨
  (a = Status.RUNNING ∧ b = Status.STOPPED) ∨
  (a = Status.PAUSED ∧ b = Status.STOPPED) ∨
  (a = Status.RUNNING ∧ b = Status.FINISHED)

/-- C1: starting from RUNNING, every operation moves the status only along
RUNNING→PAUSED, PAUSED→RUNNING, RUNNING→STOPPED, PAUSED→STOPPED,
RUNNING→FINISHED, and from every reachable state whose status is STOPPED or
FINISHED no operation ever changes the status again. -/
theorem status_transitions_legal {s s' : Sys} (hR : Reachable s) (hS : Step s s') :
    (s'.reg.status = s.reg.status ∨ allowed_edge s.reg.status s'.reg.status) ∧
    (terminal_status s.reg.status = true → s'.reg.status = s.reg.status) := by
  have hI := reachable_inv hR
  cases hS with
  | pause_ok r n h =>
      rw [pause_ok_iff] at h
      obtain ⟨-, rfl, rfl⟩ := h
      exact ⟨Or.inl rfl, fun _ => rfl⟩
  | pause_err e h => exact ⟨Or.inl rfl, fun _ => rfl⟩
  | restart_ok r n h =>
      rw [restart_ok_iff] at h
      obtain ⟨-, rfl, rfl⟩ := h
      exact ⟨Or.inl rfl, fun _ => rfl⟩
  | restart_err e h => exact ⟨Or.inl rfl, fun _ => rfl⟩
  | stop_ok r n h =>
      rw [stop_ok_iff] at h
      obtain ⟨-, rfl, rfl⟩ := h
      exact ⟨Or.inl rfl, fun _ => rfl⟩
  | stop_err e h => exact ⟨Or.inl rfl, fun _ => rfl⟩
  | yield_progress p hw hc => exact ⟨Or.inl rfl, fun _ => rfl⟩
  | yield_pause p hw hc =>
      have hst : s.reg.status = Status.RUNNING := status_of_running hI hw
      refine ⟨Or.inr (Or.inl ⟨hst, rfl⟩), fun h => ?_⟩
      rw [hst] at h
      exact absurd h (by decide)
  | yield_wake hw hc =>
      have hst : s.reg.status = Status.PAUSED := hI.1.mpr hw
      refine ⟨Or.inr (Or.inr (Or.inl ⟨hst, rfl⟩)), fun h => ?_⟩
      rw [hst] at h
      exact absurd h (by decide)
  | finish hw =>
      have hst : s.reg.status = Status.RUNNING := status_of_running hI hw
      refine ⟨?_, fun h => ?_⟩
      · by_cases hsc : s.reg.status_change = some Status.STOPPED
        · refine Or.inr (Or.inr (Or.inr (Or.inl ⟨hst, ?_⟩)))
          · show (worker_done s.reg).1.status = Status.STOPPED
            rw [worker_done_status, if_pos hsc]
        · refine Or.inr (Or.inr (Or.inr (Or.inr (Or.inr ⟨hst, ?_⟩))))
          show (worker_done s.reg).1.status = Status.FINISHED
          rw [worker_done_status, if_neg hsc]
      · rw [hst] at h
        exact absurd h (by decide)
  | thread_exit hw => exact ⟨Or.inl rfl, fun _ => rfl⟩

/-- Witness for C1 at a concrete reachable step (a `pause` request from the
initial state). -/
theorem status_transitions_legal_witness :
    ((Sys.mk ⟨Status.RUNNING, some Status.PAUSED, 0⟩ WLoc.running).reg.status =
        init.reg.status ∨
      allowed_edge init.reg.status
        (Sys.mk ⟨Status.RUNNING, some Status.PAUSED, 0⟩ WLoc.running).reg.status) ∧
    (terminal_status init.reg.status = true →
      (Sys.mk ⟨Status.RUNNING, some Status.PAUSED, 0⟩ WLoc.running).reg.status =
        init.reg.status) :=
  status_transitions_legal Reachable.init
    (Step.pause_ok init ⟨Status.RUNNING, some Status.PAUSED, 0⟩ 0 rfl)

/-- C4: pause when status is not RUNNING, restart when not PAUSED, and stop
when neither RUNNING nor PAUSED each fail synchronously with the
invalid-transition error and, as system steps, leave the state completely
unchanged (in particular a second pause issued while already PAUSED fails
this way). -/
theorem invalid_transition_rejected : ∀ s : Reg,
    (s.status ≠ Status.RUNNING → pause s = .error .invalidTransition) ∧
    (s.status ≠ Status.PAUSED → restart s = .error .invalidTransition) ∧
    (s.status ≠ Status.RUNNING ∧ s.status ≠ Status.PAUSED →
      stop s = .error .invalidTransition) ∧
    (∀ sys : Sys, sys.reg = s →
      (∀ e, pause s = .error e → Step sys sys) ∧
      (∀ e, restart s = .error e → Step sys sys) ∧
      (∀ e, stop s = .error e → Step sys sys)) := by
  intro s
  refine ⟨?_, ?_, ?_, ?_⟩
  · intro h
    unfold pause
    rw [if_pos h]
  · intro h
    unfold restart
    rw [if_pos h]
  · intro h
    unfold stop
    rw [if_pos h]
  · intro sys hs
    exact ⟨fun e he => Step.pause_err sys e (by rw [hs]; exact he),
      fun e he => Step.restart_err sys e (by rw [hs]; exact he),
      fun e he => Step.stop_err sys e (by rw [hs]; exact he)⟩

/-- Witness for C4: the second of two back-to-back pause calls (status already
PAUSED) is rejected. -/
theorem invalid_transition_rejected_witness :
    pause ⟨Status.PAUSED, none, 0⟩ = .error .invalidTransition :=
  (invalid_transition_rejected ⟨Status.PAUSED, none, 0⟩).1 (by decide)

/-- C2: yield publishes the clamped progress; if the pending change is PAUSED
it clears it, sets status PAUSED, notifies, blocks until the pending change is
RUNNING or STOPPED, sets status RUNNING and notifies again, then returns false
iff the pending change is STOPPED; otherwise it returns false iff the pending
change equals STOPPED, with no notification. -/
theorem yield_contract : ∀ (s : Reg) (p : ℚ) (wake : Status),
    (wake = Status.RUNNING ∨ wake = Status.STOPPED) →
    ((yield s p wake).1.progress = clamp p 0 1) ∧
    (s.status_change = some Status.PAUSED →
      (yield_enter_pause (set_progress s p)).status_change = none ∧
      (yield_enter_pause (set_progress s p)).status = Status.PAUSED ∧
      (yield s p wake).1.status = Status.RUNNING ∧
      (yield s p wake).1.status_change = some wake ∧
      (yield s p wake).2.1 = (if wake = Status.STOPPED then false else true) ∧
      (yield s p wake).2.2 = 2) ∧
    (s.status_change ≠ some Status.PAUSED →
      (yield s p wake).1 = set_progress s p ∧
      (yield s p wake).2.1 =
        (if s.status_change = some Status.STOPPED then false else true) ∧
      (yield s p wake).2.2 = 0) := by
  intro s p wake hwake
  by_cases h : s.status_change = some Status.PAUSED
  · have hy : yield s p wake =
        (yield_awake
          { yield_enter_pause (set_progress s p) with status_change := some wake },
         if some wake = some Status.STOPPED then false else true, 2) := by
      simp only [yield]
      rw [if_pos (show (set_progress s p).status_change = some Status.PAUSED from h)]
      rfl
    rw [hy]
    refine ⟨rfl, fun _ => ⟨rfl, rfl, rfl, rfl, ?_, rfl⟩, fun hc => absurd h hc⟩
    by_cases hw2 : wake = Status.STOPPED
    · simp [hw2]
    · simp [hw2]
  · have hy : yield s p wake =
        (set_progress s p,
         if s.status_change = some Status.STOPPED then false else true, 0) := by
      simp only [yield]
      rw [if_neg (show ¬(set_progress s p).status_change = some Status.PAUSED from h)]
      rfl
    rw [hy]
    exact ⟨rfl, fun hc => absurd hc h, fun _ => ⟨rfl, rfl, rfl⟩⟩

/-- Witness for C2 at a concrete pause round trip resumed by restart. -/
theorem yield_contract_witness :
    (yield ⟨Status.RUNNING, some Status.PAUSED, 0⟩ (1/2) Status.RUNNING).1.status_change =
      some Status.RUNNING ∧
    (yield ⟨Status.RUNNING, some Status.PAUSED, 0⟩ (1/2) Status.RUNNING).2.1 =
      (if Status.RUNNING = Status.STOPPED then false else true) :=
  ⟨((yield_contract ⟨Status.RUNNING, some Status.PAUSED, 0⟩ (1/2) Status.RUNNING
      (Or.inl rfl)).2.1 rfl).2.2.2.1,
   ((yield_contract ⟨Status.RUNNING, some Status.PAUSED, 0⟩ (1/2) Status.RUNNING
      (Or.inl rfl)).2.1 rfl).2.2.2.2.1⟩

/-- C3: worker_done sets status to STOPPED exactly when the pending change is
STOPPED and to FINISHED in every other case; a FINISHED result forces progress
to exactly 1; the waiters are notified. -/
theorem worker_done_contract : ∀ s : Reg,
    ((worker_done s).1.status =
      if s.status_change = some Status.STOPPED then Status.STOPPED
      else Status.FINISHED) ∧
    ((worker_done s).1.status = Status.FINISHED → (worker_done s).1.progress = 1) ∧
    (worker_done s).2 = 1 := by
  intro s
  refine ⟨worker_done_status s, ?_, rfl⟩
  intro hfin
  rw [worker_done_progress]
  rw [worker_done_status] at hfin
  split_ifs with hsc
  · rw [if_pos hsc] at hfin
    exact absurd hfin (by decide)
  · rfl

/-- Witness for C3: a worker that returns with a pending PAUSED that was never
observed still finishes with progress forced to 1. -/
theorem worker_done_contract_witness :
    (worker_done ⟨Status.RUNNING, some Status.PAUSED, 1/3⟩).1.progress = 1 :=
  (worker_done_contract ⟨Status.RUNNING, some Status.PAUSED, 1/3⟩).2.1
    (by rw [(worker_done_contract ⟨Status.RUNNING, some Status.PAUSED, 1/3⟩).1]; decide)

/-- The `std::future` held by `AsyncWorker`: validity flag plus the payload
value the shared state delivers. -/
structure Fut (α : Type) where
  valid : Bool
  value : α

/-- `std::future_errc::no_state`, thrown as `std::future_error`. -/
inductive FutureError where
  | no_state
deriving DecidableEq, Repr

/-- `AsyncWorker::result()`: `if (!future_.valid()) throw
std::future_error(std::future_errc::no_state); return future_.get();` —
`get` consumes the shared state, leaving the future invalid. -/
def result {α : Type} (f : Fut α) : Except FutureError (α × Fut α) :=
  if !f.valid then .error .no_state
  else .ok (f.value, { f with valid := false })

/-- `AsyncWorker::work`: runs the payload (modelled as an arbitrary function
of the register), then calls `worker_done`; the future only becomes ready
with the register `worker_done` produced. -/
def work {α : Type} (payload : Reg → α × Reg) (s : Reg) : α × Reg :=
  ((payload s).1, (worker_done (payload s).2).1)

/-- C5: result() yields the payload value exactly once — a valid future is
consumed and the returned future rejects a second call with no_state; a call
without a valid pending execution fails with no_state; and the value only
becomes available together with a terminal register. -/
theorem result_once : ∀ (α : Type) (f : Fut α),
    (f.valid = true →
      result f = .ok (f.value, ⟨false, f.value⟩) ∧
      result (⟨false, f.value⟩ : Fut α) = .error .no_state) ∧
    (f.valid = false → result f = .error .no_state) ∧
    (∀ (payload : Reg → α × Reg) (s : Reg),
      terminal_status (work payload s).2.status = true) := by
  intro α f
  refine ⟨?_, ?_, ?_⟩
  · intro hv
    constructor
    · unfold result
      rw [hv]
      rfl
    · rfl
  · intro hv
    unfold result
    rw [hv]
    rfl
  · intro payload s
    show terminal_status (worker_done (payload s).2).1.status = true
    rw [worker_done_status]
    by_cases hsc : (payload s).2.status_change = some Status.STOPPED
    · rw [if_pos hsc]
      rfl
    · rw [if_neg hsc]
      rfl

/-- Witness for C5 at a concrete future holding the value 7. -/
theorem result_once_witness :
    result (⟨true, (7 : Nat)⟩ : Fut Nat) = .ok (7, ⟨false, 7⟩) ∧
    result (⟨false, (7 : Nat)⟩ : Fut Nat) = .error .no_state :=
  ⟨((result_once Nat ⟨true, 7⟩).1 rfl).1, (result_once Nat ⟨false, 7⟩).2.1 rfl⟩

/-- C6: progress starts at 0; every value passed to set_progress/yield is
clamped to the nearest bound of [0,1]; in every reachable state the stored
progress lies in [0,1]; and every reachable FINISHED state has progress
exactly 1. -/
theorem progress_bounds :
    init.reg.progress = 0 ∧
    (∀ p : ℚ, (p < 0 → clamp p 0 1 = 0) ∧ (1 < p → clamp p 0 1 = 1) ∧
      0 ≤ clamp p 0 1 ∧ clamp p 0 1 ≤ 1) ∧
    (∀ s : Sys, Reachable s →
      0 ≤ s.reg.progress ∧ s.reg.progress ≤ 1 ∧
      (s.reg.status = Status.FINISHED → s.reg.progress = 1)) := by
  refine ⟨rfl, ?_, ?_⟩
  · intro p
    refine ⟨?_, ?_, (clamp01_mem p).1, (clamp01_mem p).2⟩
    · intro hlt
      unfold clamp
      rw [if_pos hlt]
    · intro hgt
      unfold clamp
      rw [if_neg (by linarith), if_pos hgt]
  · intro s hR
    have hI := reachable_inv hR
    exact ⟨hI.2.2.1, hI.2.2.2.1, hI.2.2.2.2⟩

/-- Witness for C6 at out-of-range updates and the initial state. -/
theorem progress_bounds_witness :
    clamp 2 0 1 = 1 ∧ clamp (-1) 0 1 = 0 ∧
    (0 ≤ init.reg.progress ∧ init.reg.progress ≤ 1 ∧
      (init.reg.status = Status.FINISHED → init.reg.progress = 1)) :=
  ⟨(progress_bounds.2.1 2).2.1 (by norm_num),
   (progress_bounds.2.1 (-1)).1 (by norm_num),
   progress_bounds.2.2 init Reachable.init⟩

/-- The state after `pause()` wrote its request into the fresh register. -/
def pause_requested : Sys := ⟨⟨Status.RUNNING, some Status.PAUSED, 0⟩, WLoc.running⟩

/-- The state after yield observed the pause request and blocked. -/
def paused_state : Sys := ⟨⟨Status.PAUSED, none, 0⟩, WLoc.pausedWait⟩

/-- The state after `restart()` wrote its request for the sleeping worker. -/
def restart_requested : Sys := ⟨⟨Status.PAUSED, some Status.RUNNING, 0⟩, WLoc.pausedWait⟩

/-- The state after yield woke up on the restart request. -/
def resumed_state : Sys := ⟨⟨Status.RUNNING, some Status.RUNNING, 0⟩, WLoc.running⟩

/-- C7 counterexample: in the reachable state right after yield wakes up on and
acts on a pending RUNNING request, the pending slot is not empty — it still
holds RUNNING, so the worker did not clear the slot after acting on it. -/
theorem pending_not_cleared_cex :
    Step restart_requested resumed_state ∧
    Reachable resumed_state ∧
    resumed_state.reg.status_change = some Status.RUNNING ∧
    resumed_state.reg.status_change ≠ none := by
  have h1 : Step init pause_requested :=
    Step.pause_ok init ⟨Status.RUNNING, some Status.PAUSED, 0⟩ 0 rfl
  have h2 : Step pause_requested paused_state := by
    have hs : Step pause_requested
        ⟨yield_enter_pause (set_progress pause_requested.reg 0), WLoc.pausedWait⟩ :=
      Step.yield_pause pause_requested 0 rfl rfl
    have he : (⟨yield_enter_pause (set_progress pause_requested.reg 0),
        WLoc.pausedWait⟩ : Sys) = paused_state := by decide
    rw [he] at hs
    exact hs
  have h3 : Step paused_state restart_requested :=
    Step.restart_ok paused_state ⟨Status.PAUSED, some Status.RUNNING, 0⟩ 1 rfl
  have h4 : Step restart_requested resumed_state := by
    have hs : Step restart_requested
        ⟨yield_awake restart_requested.reg, WLoc.running⟩ :=
      Step.yield_wake restart_requested rfl (Or.inl rfl)
    have he : (⟨yield_awake restart_requested.reg, WLoc.running⟩ : Sys) =
        resumed_state := by decide
    rw [he] at hs
    exact hs
  exact ⟨h4,
    Reachable.step (Reachable.step (Reachable.step
      (Reachable.step Reachable.init h1) h2) h3) h4,
    rfl, by decide⟩

/-- C7 amended: the worker clears the pending slot only when it observes a
pending PAUSED (before blocking); after the wake the slot holds the RUNNING or
STOPPED request that ended the wait, and worker_done leaves the slot
untouched, so a request can remain in the slot in terminal states. -/
theorem pending_cleared_only_on_pause : ∀ (s : Reg) (p : ℚ) (wake : Status),
    (s.status_change = some Status.PAUSED →
      (yield_enter_pause (set_progress s p)).status_change = none) ∧
    ((yield s p wake).1.status_change =
      if s.status_change = some Status.PAUSED then some wake
      else s.status_change) ∧
    ((worker_done s).1.status_change = s.status_change) := by
  intro s p wake
  refine ⟨fun _ => rfl, ?_, worker_done_change s⟩
  by_cases h : s.status_change = some Status.PAUSED
  · rw [if_pos h]
    simp only [yield]
    rw [if_pos (show (set_progress s p).status_change = some Status.PAUSED from h)]
    rfl
  · rw [if_neg h]
    simp only [yield]
    rw [if_neg (show ¬(set_progress s p).status_change = some Status.PAUSED from h)]
    rfl

/-- Witness for C7's amended claim at concrete registers. -/
theorem pending_cleared_only_on_pause_witness :
    (yield_enter_pause
      (set_progress ⟨Status.RUNNING, some Status.PAUSED, 0⟩ 0)).status_change = none ∧
    (worker_done ⟨Status.RUNNING, some Status.STOPPED, 0⟩).1.status_change =
      (⟨Status.RUNNING, some Status.STOPPED, 0⟩ : Reg).status_change :=
  ⟨(pending_cleared_only_on_pause ⟨Status.RUNNING, some Status.PAUSED, 0⟩ 0
      Status.RUNNING).1 rfl,
   (pending_cleared_only_on_pause ⟨Status.RUNNING, some Status.STOPPED, 0⟩ 0
      Status.RUNNING).2.2⟩

/-- The state after `stop()` wrote its request into the fresh register. -/
def stop_requested : Sys := ⟨⟨Status.RUNNING, some Status.STOPPED, 0⟩, WLoc.running⟩

/-- The state after the payload returned and `worker_done` ran on the stop
request: status terminal, worker thread still delivering the result. -/
def stopped_finishing : Sys := ⟨⟨Status.STOPPED, some Status.STOPPED, 0⟩, WLoc.finishing⟩

theorem reachable_stopped_finishing : Reachable stopped_finishing := by
  have h1 : Step init stop_requested :=
    Step.stop_ok init ⟨Status.RUNNING, some Status.STOPPED, 0⟩ 1 rfl
  have h2 : Step stop_requested stopped_finishing := by
    have hs : Step stop_requested
        ⟨(worker_done stop_requested.reg).1, WLoc.finishing⟩ :=
      Step.finish stop_requested rfl
    have he : (⟨(worker_done stop_requested.reg).1, WLoc.finishing⟩ : Sys) =
        stopped_finishing := by decide
    rw [he] at hs
    exact hs
  exact Reachable.step (Reachable.step Reachable.init h1) h2

/-- C8 counterexample: a reachable state where stop()'s wait predicate already
holds — so stop() may return — while the worker thread has not exited yet: it
is still between worker_done and thread exit, storing the result. -/
theorem stop_before_exit_cex :
    Reachable stopped_finishing ∧
    stop_wait_pred stopped_finishing.reg = true ∧
    stopped_finishing.wloc ≠ WLoc.exited :=
  ⟨reachable_stopped_finishing, rfl, by decide⟩

/-- C8 amended: stop() on a RUNNING or PAUSED register schedules STOPPED and
notifies once, then blocks on `terminal_status`; in every reachable state
satisfying that predicate the worker is at or past worker_done (finishing or
exited), and every step taken from such a worker location leaves the register
unchanged — but the worker thread need not have fully exited when the
predicate first holds. -/
theorem stop_contract : ∀ s : Reg,
    ((s.status = Status.RUNNING ∨ s.status = Status.PAUSED) →
      stop s = .ok ({ s with status_change := some Status.STOPPED }, 1)) ∧
    (∀ sys : Sys, Reachable sys → sys.reg = s → stop_wait_pred s = true →
      (sys.wloc = WLoc.finishing ∨ sys.wloc = WLoc.exited)) ∧
    (∀ sys sys2 : Sys, Reachable sys →
      (sys.wloc = WLoc.finishing ∨ sys.wloc = WLoc.exited) →
      Step sys sys2 → sys2.reg = sys.reg) := by
  intro s
  refine ⟨?_, ?_, ?_⟩
  · intro hlive
    rw [stop_ok_iff]
    exact ⟨hlive, rfl, rfl⟩
  · intro sys hR hreg hpred
    have hI := reachable_inv hR
    exact hI.2.1.mp (by rw [hreg]; exact hpred)
  · intro sys sys2 hR hfin hS
    have hI := reachable_inv hR
    have hterm : terminal_status sys.reg.status = true := hI.2.1.mpr hfin
    cases hS with
    | pause_ok r n h =>
        rw [pause_ok_iff] at h
        rw [h.1] at hterm
        exact absurd hterm (by decide)
    | pause_err e h => rfl
    | restart_ok r n h =>
        rw [restart_ok_iff] at h
        rw [h.1] at hterm
        exact absurd hterm (by decide)
    | restart_err e h => rfl
    | stop_ok r n h =>
        rw [stop_ok_iff] at h
        rcases h.1 with h1 | h1 <;> (rw [h1] at hterm; exact absurd hterm (by decide))
    | stop_err e h => rfl
    | yield_progress p hw hc =>
        rcases hfin with hl | hl <;> (rw [hw] at hl; exact WLoc.noConfusion hl)
    | yield_pause p hw hc =>
        rcases hfin with hl | hl <;> (rw [hw] at hl; exact WLoc.noConfusion hl)
    | yield_wake hw hc =>
        rcases hfin with hl | hl <;> (rw [hw] at hl; exact WLoc.noConfusion hl)
    | finish hw =>
        rcases hfin with hl | hl <;> (rw [hw] at hl; exact WLoc.noConfusion hl)
    | thread_exit hw => rfl

/-- Witness for C8's amended claim: a stop from PAUSED, and the terminal
observation in the concrete reachable finishing state. -/
theorem stop_contract_witness :
    stop ⟨Status.PAUSED, none, 0⟩ =
      .ok (⟨Status.PAUSED, some Status.STOPPED, 0⟩, 1) ∧
    (stopped_finishing.wloc = WLoc.finishing ∨
      stopped_finishing.wloc = WLoc.exited) :=
  ⟨(stop_contract ⟨Status.PAUSED, none, 0⟩).1 (Or.inr rfl),
   (stop_contract stopped_finishing.reg).2.1 stopped_finishing
     reachable_stopped_finishing rfl rfl⟩

theorem yield_eq_pause (s : Reg) (p : ℚ) (wake : Status)
    (h : s.status_change = some Status.PAUSED) :
    yield s p wake =
      (yield_awake { yield_enter_pause (set_progress s p) with
        status_change := some wake },
       if some wake = some Status.STOPPED then false else true, 2) := by
  simp only [yield]
  rw [if_pos (show (set_progress s p).status_change = some Status.PAUSED from h)]
  rfl

theorem yield_eq_no_pause (s : Reg) (p : ℚ) (wake : Status)
    (h : s.status_change ≠ some Status.PAUSED) :
    yield s p wake =
      (set_progress s p,
       if s.status_change = some Status.STOPPED then false else true, 0) := by
  simp only [yield]
  rw [if_neg (show ¬(set_progress s p).status_change = some Status.PAUSED from h)]
  rfl

/-- C10: yield publishes the clamped progress before the pause block and the
stop check — the update is visible in the blocked intermediate state and in
the final state even when yield returns false — and when the pending slot is
empty yield returns true and changes nothing except the progress. -/
theorem yield_frame : ∀ (s : Reg) (p : ℚ) (wake : Status),
    ((yield s p wake).1.progress = clamp p 0 1) ∧
    ((yield_enter_pause (set_progress s p)).progress = clamp p 0 1) ∧
    ((yield s p wake).2.1 = false → (yield s p wake).1.progress = clamp p 0 1) ∧
    (s.status_change = none →
      (yield s p wake).1 = { s with progress := clamp p 0 1 } ∧
      (yield s p wake).1.status = s.status ∧
      (yield s p wake).1.status_change = none ∧
      (yield s p wake).2.1 = true) := by
  intro s p wake
  by_cases h : s.status_change = some Status.PAUSED
  · rw [yield_eq_pause s p wake h]
    refine ⟨rfl, rfl, fun _ => rfl, fun hn => ?_⟩
    rw [h] at hn
    exact Option.noConfusion hn
  · rw [yield_eq_no_pause s p wake h]
    refine ⟨rfl, rfl, fun _ => rfl, fun hn => ?_⟩
    refine ⟨rfl, rfl, ?_, ?_⟩
    · show (set_progress s p).status_change = none
      exact hn
    · show (if s.status_change = some Status.STOPPED then false else true) = true
      rw [hn]
      rfl

/-- Witness for C10: an empty pending slot and an out-of-range progress
argument. -/
theorem yield_frame_witness :
    (yield ⟨Status.RUNNING, none, 0⟩ 2 Status.RUNNING).1 =
      ({ status := Status.RUNNING, status_change := none,
         progress := clamp 2 0 1 } : Reg) ∧
    (yield ⟨Status.RUNNING, none, 0⟩ 2 Status.RUNNING).2.1 = true :=
  ⟨((yield_frame ⟨Status.RUNNING, none, 0⟩ 2 Status.RUNNING).2.2.2 rfl).1,
   ((yield_frame ⟨Status.RUNNING, none, 0⟩ 2 Status.RUNNING).2.2.2 rfl).2.2.2⟩

/-- `operator<<(std::ostream&, Status)` from worker.hpp. -/
def statusString (st : Status) : String :=
  match st with
  | Status.RUNNING => "running"
  | Status.PAUSED => "paused"
  | Status.STOPPED => "stopped"
  | Status.FINISHED => "finished"

/-- `std::setw(w)` under the default right justification and space fill. -/
def padLeft (w : Nat) (str : String) : String :=
  String.mk (List.replicate (w - str.length) (' ' : Char)) ++ str

/-- `std::round` on the nonnegative doubles produced here: half away from
zero, i.e. the floor of `x + 1/2`. -/
def roundHalf (x : ℚ) : ℤ := Int.floor (x + 1 / 2)

/-- The unconditional part of `operator<<(std::ostream&, const BaseWorker&)`:
`os << "worker " << std::setw(20) << worker.name() << " - " << std::setw(10)
<< worker_status`. -/
def render_base (name : String) (st : Status) : String :=
  "worker " ++ padLeft 20 name ++ " - " ++ padLeft 10 (statusString st)

/-- `operator<<(std::ostream&, const BaseWorker&)` from worker.hpp: after the
base part, the percent clause is appended iff the status is RUNNING or PAUSED
and `worker.progress() > 0`. -/
def render (name : String) (st : Status) (progress : ℚ) : String :=
  if (st = Status.RUNNING ∨ st = Status.PAUSED) ∧ progress > 0 then
    render_base name st ++ " (" ++ padLeft 3 (toString (roundHalf (progress * 100)))
      ++ "% done)"
  else render_base name st

/-- C9 counterexample: with status RUNNING and progress 0 the operator omits
the percent clause (the code additionally requires progress > 0) and prefixes
the padded fields with "worker ", so the output differs from the claimed
string for a live status. -/
theorem render_running_zero_cex :
    render "w" Status.RUNNING 0 = "worker                    w -    running" ∧
    render "w" Status.RUNNING 0 ≠ "w - running (0% done)" := by
  constructor
  · decide
  · decide

/-- C9 amended: the operator prints "worker <name in width 20> - <status in
width 10>" and appends " (<percent in width 3>% done)" with percent =
round(progress*100) exactly when the status is RUNNING or PAUSED and the
progress is strictly positive; for terminal states and for progress ≤ 0 the
clause is omitted. -/
theorem render_contract : ∀ (name : String) (st : Status) (p : ℚ),
    (terminal_status st = true → render name st p = render_base name st) ∧
    ((st = Status.RUNNING ∨ st = Status.PAUSED) → p ≤ 0 →
      render name st p = render_base name st) ∧
    ((st = Status.RUNNING ∨ st = Status.PAUSED) → 0 < p →
      render name st p =
        render_base name st ++ " (" ++
          padLeft 3 (toString (roundHalf (p * 100))) ++ "% done)") := by
  intro name st p
  refine ⟨?_, ?_, ?_⟩
  · intro hterm
    unfold render
    rw [if_neg]
    rintro ⟨hl | hl, -⟩ <;> (rw [hl] at hterm; exact absurd hterm (by decide))
  · intro hlive hle
    unfold render
    rw [if_neg]
    rintro ⟨-, hgt⟩
    exact absurd hgt (not_lt.mpr hle)
  · intro hlive hgt
    unfold render
    rw [if_pos ⟨hlive, hgt⟩]

/-- Witness for C9's amended claim: a live padded rendering with the percent
clause and a terminal rendering without it. -/
theorem render_contract_witness :
    render "sorter" Status.PAUSED (1/2) =
      render_base "sorter" Status.PAUSED ++ " (" ++
        padLeft 3 (toString (roundHalf ((1 : ℚ)/2 * 100))) ++ "% done)" ∧
    render "sorter" Status.STOPPED (1/2) = render_base "sorter" Status.STOPPED :=
  ⟨(render_contract "sorter" Status.PAUSED (1/2)).2.2 (Or.inr rfl) (by norm_num),
   (render_contract "sorter" Status.STOPPED (1/2)).1 rfl⟩

end AsyncWorker
